import Mathlib

/-!
# Reddit-Indexer: verification of the incremental ingestion pipeline

A shallow embedding of the Python sources `reddit_indexer.py`,
`mongodb_interface.py` and `app.py` of the Reddit-Indexer repository,
together with theorems settling the specification's claims about:

* the per-channel watermark logic of `SubredditRetriever`
  (`retrieve_submissions`, `retrieve_comments`, `retrieve`, `set_timestamp`);
* the partitioning of subreddits over worker threads (`create_threads`,
  `create_simple_threads`, `create_multiple_subreddit_threads`);
* the tokenizer (`format_comment`, `format_submission`, modelling
  `re.findall(r"[\w']+", body)` followed by `.lower()` and `Counter(...).keys()`);
* the write path (`insert_comments`, `insert_submissions`) and its
  asymmetric `BulkWriteError` handling;
* the read-path query construction (`__create_query` and friends);
* the worker loop (`SubredditThread.run`), modelled as a step machine that
  reads the global `CLOSING` flag exactly where the Python code does.

External effects (the praw content API, the Mongo store, `random.shuffle`,
threads, signals) are modelled by explicit parameters: the items the API
returns are inputs, the shuffled order is a caller-supplied permutation,
the store's bulk-insert outcome is a Boolean, and the evolving value of the
`CLOSING` flag is a list of Booleans consumed one per machine step.
-/

namespace RedditIndexer

/-- An item as returned by the content API (`submission`/`comment` objects
of praw): a creation timestamp (`int(x.created)`) and a body/title string. -/
structure ApiItem where
  created : Int
  body : String
deriving DecidableEq, Repr

/-- A retrieved document, as built by `retrieve_submissions` /
`retrieve_comments` (`reddit_indexer.py` lines 122-125 and 158-161):
the dict `{'subreddit': ..., 'body': ..., 'timestamp': ...}`. -/
structure RDoc where
  subreddit : String
  body : String
  timestamp : Int
deriving DecidableEq, Repr

/-- The shared loop body of `retrieve_submissions` (lines 113-129) and
`retrieve_comments` (lines 149-165), which are textually identical up to
the item source:

    new_timestamp = timestamp
    new_items = []
    for item in <api items>:
        if timestamp >= int(item.created):
            continue
        new_timestamp = max(new_timestamp, int(item.created))
        new_items.append({'subreddit': name, 'body': item.body,
                          'timestamp': int(item.created)})
    return new_items, new_timestamp
-/
def retrieveNewer (subreddit_name : String) (timestamp : Int)
    (api_items : List ApiItem) : List RDoc × Int :=
  api_items.foldl
    (fun acc item =>
      if timestamp ≥ item.created then acc
      else (acc.1 ++ [⟨subreddit_name, item.body, item.created⟩],
            max acc.2 item.created))
    ([], timestamp)

/-- `SubredditRetriever.retrieve_submissions` (lines 95-129); the items the
praw call `subreddit.new(limit=...)` yields are the input `api_items`. -/
def retrieve_submissions (subreddit_name : String) (timestamp : Int)
    (api_items : List ApiItem) : List RDoc × Int :=
  retrieveNewer subreddit_name timestamp api_items

/-- `SubredditRetriever.retrieve_comments` (lines 131-165); the items the
praw call `subreddit.comments(limit=...)` yields are the input `api_items`. -/
def retrieve_comments (subreddit_name : String) (timestamp : Int)
    (api_items : List ApiItem) : List RDoc × Int :=
  retrieveNewer subreddit_name timestamp api_items

/-- The mutable state of a `SubredditRetriever` (lines 88-93): the channel
name and the single watermark field `self.timestamp`.  The `reddit` handle
is not part of the state we model; the items it yields are explicit inputs. -/
structure SubredditRetriever where
  subreddit_name : String
  timestamp : Int
deriving DecidableEq, Repr

/-- `SubredditRetriever.set_timestamp` (lines 191-195). -/
def SubredditRetriever.set_timestamp (r : SubredditRetriever) (timestamp : Int) :
    SubredditRetriever :=
  { r with timestamp := timestamp }

/-- `SubredditRetriever.retrieve` (lines 167-189): reads `self.timestamp`
once, retrieves both kinds against that value, stores the max of the two
new timestamps, and returns `(new_submissions, new_comments, new_timestamp)`.
The post-call retriever state is returned alongside the Python return value. -/
def SubredditRetriever.retrieve (r : SubredditRetriever)
    (api_submissions api_comments : List ApiItem) :
    (List RDoc × List RDoc × Int) × SubredditRetriever :=
  let timestamp := r.timestamp
  let s := retrieve_submissions r.subreddit_name timestamp api_submissions
  let c := retrieve_comments r.subreddit_name timestamp api_comments
  let new_timestamp := max s.2 c.2
  ((s.1, c.1, new_timestamp), r.set_timestamp new_timestamp)

/-- A whole sequence of `retrieve` calls on one retriever, each call fed
its own pair of API item lists. -/
def runRetrieves (r : SubredditRetriever) :
    List (List ApiItem × List ApiItem) → SubredditRetriever
  | [] => r
  | (s, c) :: rest => runRetrieves (r.retrieve s c).2 rest

/-! ### Generic facts about the retrieval loop -/

theorem retrieveNewer_fold_fst (name : String) (w : Int) (items : List ApiItem)
    (l₀ : List RDoc) (t₀ : Int) :
    (items.foldl
      (fun acc item =>
        if w ≥ item.created then acc
        else (acc.1 ++ [⟨name, item.body, item.created⟩], max acc.2 item.created))
      (l₀, t₀)).1 =
      l₀ ++ (items.filter (fun item => w < item.created)).map
        (fun item => ⟨name, item.body, item.created⟩) := by
  induction items generalizing l₀ t₀ with
  | nil => simp
  | cons a rest ih =>
    by_cases h : w ≥ a.created
    · have h' : ¬ w < a.created := not_lt.mpr h
      simp [List.foldl_cons, h, List.filter_cons, h', ih]
    · have h' : w < a.created := lt_of_not_ge h
      simp [List.foldl_cons, h, List.filter_cons, h', ih]

theorem retrieveNewer_fold_snd_ge (name : String) (w : Int) (items : List ApiItem)
    (l₀ : List RDoc) (t₀ : Int) :
    t₀ ≤ (items.foldl
      (fun acc item =>
        if w ≥ item.created then acc
        else (acc.1 ++ [⟨name, item.body, item.created⟩], max acc.2 item.created))
      (l₀, t₀)).2 := by
  induction items generalizing l₀ t₀ with
  | nil => simp
  | cons a rest ih =>
    by_cases h : w ≥ a.created
    · simpa [List.foldl_cons, h] using ih l₀ t₀
    · calc t₀ ≤ max t₀ a.created := le_max_left _ _
        _ ≤ _ := by simpa [List.foldl_cons, h] using ih _ (max t₀ a.created)

theorem retrieveNewer_fold_snd_mem_le (name : String) (w : Int)
    (items : List ApiItem) (l₀ : List RDoc) (t₀ : Int) :
    ∀ item ∈ items, w < item.created →
      item.created ≤ (items.foldl
        (fun acc item =>
          if w ≥ item.created then acc
          else (acc.1 ++ [⟨name, item.body, item.created⟩], max acc.2 item.created))
        (l₀, t₀)).2 := by
  induction items generalizing l₀ t₀ with
  | nil => intro item h; simp at h
  | cons a rest ih =>
    intro item hmem hgt
    rcases List.mem_cons.mp hmem with rfl | hmem
    · have h : ¬ w ≥ item.created := not_le.mpr hgt
      calc item.created ≤ max t₀ item.created := le_max_right _ _
        _ ≤ _ := by
          simpa [List.foldl_cons, h] using
            retrieveNewer_fold_snd_ge name w rest _ (max t₀ item.created)
    · by_cases h : w ≥ a.created
      · simpa [List.foldl_cons, h] using ih l₀ t₀ item hmem hgt
      · simpa [List.foldl_cons, h] using ih _ (max t₀ a.created) item hmem hgt

theorem retrieveNewer_fold_snd_cases (name : String) (w : Int)
    (items : List ApiItem) (l₀ : List RDoc) (t₀ : Int) :
    (items.foldl
      (fun acc item =>
        if w ≥ item.created then acc
        else (acc.1 ++ [⟨name, item.body, item.created⟩], max acc.2 item.created))
      (l₀, t₀)).2 = t₀ ∨
    ∃ item ∈ items, w < item.created ∧
      (items.foldl
        (fun acc item =>
          if w ≥ item.created then acc
          else (acc.1 ++ [⟨name, item.body, item.created⟩], max acc.2 item.created))
        (l₀, t₀)).2 = item.created := by
  induction items generalizing l₀ t₀ with
  | nil => left; simp
  | cons a rest ih =>
    by_cases h : w ≥ a.created
    · rcases ih l₀ t₀ with h0 | ⟨item, hmem, hgt, heq⟩
      · left; simpa [List.foldl_cons, h] using h0
      · right; exact ⟨item, List.mem_cons_of_mem _ hmem, hgt,
          by simpa [List.foldl_cons, h] using heq⟩
    · rcases ih (l₀ ++ [⟨name, a.body, a.created⟩]) (max t₀ a.created) with
        h0 | ⟨item, hmem, hgt, heq⟩
      · rcases max_cases t₀ a.created with ⟨hm, _⟩ | ⟨hm, _⟩
        · left; simp only [List.foldl_cons, if_neg h]; rw [h0, hm]
        · right; exact ⟨a, List.mem_cons_self _ _, lt_of_not_ge h,
            by simp only [List.foldl_cons, if_neg h]; rw [h0, hm]⟩
      · right; exact ⟨item, List.mem_cons_of_mem _ hmem, hgt,
          by simpa [List.foldl_cons, h] using heq⟩

theorem retrieveNewer_fst (name : String) (w : Int) (items : List ApiItem) :
    (retrieveNewer name w items).1 =
      (items.filter (fun item => w < item.created)).map
        (fun item => ⟨name, item.body, item.created⟩) := by
  simpa using retrieveNewer_fold_fst name w items [] w

theorem retrieveNewer_snd_ge (name : String) (w : Int) (items : List ApiItem) :
    w ≤ (retrieveNewer name w items).2 :=
  retrieveNewer_fold_snd_ge name w items [] w

theorem retrieveNewer_snd_mem_le (name : String) (w : Int) (items : List ApiItem) :
    ∀ item ∈ items, w < item.created → item.created ≤ (retrieveNewer name w items).2 :=
  retrieveNewer_fold_snd_mem_le name w items [] w

theorem retrieveNewer_snd_cases (name : String) (w : Int) (items : List ApiItem) :
    (retrieveNewer name w items).2 = w ∨
    ∃ item ∈ items, w < item.created ∧ (retrieveNewer name w items).2 = item.created :=
  retrieveNewer_fold_snd_cases name w items [] w

theorem retrieveNewer_snd_of_no_newer (name : String) (w : Int)
    (items : List ApiItem)
    (h : items.filter (fun item => w < item.created) = []) :
    (retrieveNewer name w items).2 = w := by
  rcases retrieveNewer_snd_cases name w items with h0 | ⟨item, hmem, hgt, _⟩
  · exact h0
  · have : item ∈ items.filter (fun item => w < item.created) :=
      List.mem_filter.mpr ⟨hmem, by simpa using hgt⟩
    rw [h] at this
    simp at this

/-! ### Claims C1, C2, C10 -/

/-- C1: for every channel, watermark `w` and API item sequence, a fetch
(`retrieve_submissions` / `retrieve_comments`) keeps exactly the items whose
creation timestamp is strictly greater than `w`, and returns
`newWatermark = max(w, max created of kept items)` (so `w ≤ newWatermark`,
every kept item's timestamp is `≤ newWatermark`, and the new watermark is
`w` itself or the timestamp of some kept item); if no item qualifies the
watermark is returned unchanged.  In particular for timestamps `[5, 10, 15]`
and watermark `10` only the item at `15` is kept and the watermark becomes
`15`. -/
theorem c1_retrieval_filtering (name : String) (w : Int) (items : List ApiItem) :
    ((retrieve_submissions name w items).1 =
      (items.filter (fun item => w < item.created)).map
        (fun item => ⟨name, item.body, item.created⟩) ∧
     (retrieve_comments name w items).1 =
      (items.filter (fun item => w < item.created)).map
        (fun item => ⟨name, item.body, item.created⟩)) ∧
    (items.filter (fun item => w < item.created) = [] →
      (retrieve_submissions name w items).2 = w) ∧
    (items.filter (fun item => w < item.created) = [] →
      (retrieve_comments name w items).2 = w) ∧
    (w ≤ (retrieve_submissions name w items).2 ∧
     (∀ item ∈ items, w < item.created →
        item.created ≤ (retrieve_submissions name w items).2) ∧
     ((retrieve_submissions name w items).2 = w ∨
      ∃ item ∈ items, w < item.created ∧
        (retrieve_submissions name w items).2 = item.created)) ∧
    (w ≤ (retrieve_comments name w items).2 ∧
     (∀ item ∈ items, w < item.created →
        item.created ≤ (retrieve_comments name w items).2) ∧
     ((retrieve_comments name w items).2 = w ∨
      ∃ item ∈ items, w < item.created ∧
        (retrieve_comments name w items).2 = item.created)) ∧
    retrieve_submissions "chan" 10 [⟨5, "a"⟩, ⟨10, "b"⟩, ⟨15, "c"⟩] =
      ([⟨"chan", "c", 15⟩], 15) := by
  refine ⟨⟨retrieveNewer_fst name w items, retrieveNewer_fst name w items⟩,
    retrieveNewer_snd_of_no_newer name w items,
    retrieveNewer_snd_of_no_newer name w items,
    ⟨retrieveNewer_snd_ge name w items,
     retrieveNewer_snd_mem_le name w items,
     retrieveNewer_snd_cases name w items⟩,
    ⟨retrieveNewer_snd_ge name w items,
     retrieveNewer_snd_mem_le name w items,
     retrieveNewer_snd_cases name w items⟩, by decide⟩

/-- Closed instance of C1's hypotheses: on a channel where no API item beats
the watermark, the returned watermark is the old one. -/
theorem c1_retrieval_filtering_witness :
    (retrieve_submissions "chan" 10 [⟨5, "a"⟩]).2 = 10 ∧
    (retrieve_comments "chan" 10 [⟨5, "a"⟩]).2 = 10 ∧
    ((retrieve_submissions "chan" 10 [⟨5, "a"⟩, ⟨10, "b"⟩, ⟨15, "c"⟩]).2 : Int) = 15 := by
  have h := c1_retrieval_filtering "chan" 10 [⟨5, "a"⟩]
  have h15 := c1_retrieval_filtering "chan" 10 [⟨5, "a"⟩, ⟨10, "b"⟩, ⟨15, "c"⟩]
  exact ⟨h.2.1 (by decide), h.2.2.1 (by decide),
    by rw [congrArg Prod.snd h15.2.2.2.2.2]⟩

/-- The stored watermark never decreases across one `retrieve` call. -/
theorem retrieve_step_mono (r : SubredditRetriever)
    (api_submissions api_comments : List ApiItem) :
    r.timestamp ≤ ((r.retrieve api_submissions api_comments).2).timestamp := by
  have h := retrieveNewer_snd_ge r.subreddit_name r.timestamp api_submissions
  calc r.timestamp ≤ (retrieveNewer r.subreddit_name r.timestamp api_submissions).2 := h
    _ ≤ _ := by
      simp only [SubredditRetriever.retrieve, SubredditRetriever.set_timestamp,
        retrieve_submissions, retrieve_comments]
      exact le_max_left _ _

/-- C2: for any sequence of retrieve calls on one `SubredditRetriever`,
starting from any initial watermark, the stored watermark (`self.timestamp`)
is non-decreasing: one call never decreases it, the returned `new_timestamp`
is exactly the post-call stored watermark, and any sequence of calls leaves
the stored watermark at least where it started. -/
theorem c2_watermark_monotonic (r : SubredditRetriever)
    (api_submissions api_comments : List ApiItem)
    (calls : List (List ApiItem × List ApiItem)) :
    r.timestamp ≤ ((r.retrieve api_submissions api_comments).2).timestamp ∧
    (r.retrieve api_submissions api_comments).1.2.2 =
      ((r.retrieve api_submissions api_comments).2).timestamp ∧
    r.timestamp ≤ (runRetrieves r calls).timestamp := by
  refine ⟨retrieve_step_mono r api_submissions api_comments, rfl, ?_⟩
  induction calls generalizing r with
  | nil => exact le_refl _
  | cons p rest ih =>
    calc r.timestamp ≤ ((r.retrieve p.1 p.2).2).timestamp :=
          retrieve_step_mono r p.1 p.2
      _ ≤ _ := by
          have := ih (r.retrieve p.1 p.2).2
          simpa [runRetrieves] using this

/-- C10: a channel holds a single watermark shared by both item kinds: one
`retrieve` call filters both submissions and comments against the same
pre-call value `r.timestamp`, advances the watermark exactly once to the
max of the two kinds' new timestamps, and consequently a kept submission
raises the exclusive lower bound used to filter comments on the next call:
every comment document kept by the following call is strictly newer than
any submission kept now. -/
theorem c10_shared_watermark (r : SubredditRetriever)
    (api_submissions api_comments : List ApiItem) :
    (r.retrieve api_submissions api_comments).1.1 =
      (retrieve_submissions r.subreddit_name r.timestamp api_submissions).1 ∧
    (r.retrieve api_submissions api_comments).1.2.1 =
      (retrieve_comments r.subreddit_name r.timestamp api_comments).1 ∧
    ((r.retrieve api_submissions api_comments).2).timestamp =
      max (retrieve_submissions r.subreddit_name r.timestamp api_submissions).2
          (retrieve_comments r.subreddit_name r.timestamp api_comments).2 ∧
    ((r.retrieve api_submissions api_comments).2).subreddit_name =
      r.subreddit_name ∧
    (∀ item ∈ api_submissions, r.timestamp < item.created →
      ∀ api_submissions2 api_comments2 : List ApiItem,
        ∀ d ∈ (((r.retrieve api_submissions api_comments).2).retrieve
                 api_submissions2 api_comments2).1.2.1,
          item.created < d.timestamp) := by
  refine ⟨rfl, rfl, rfl, rfl, ?_⟩
  intro item hmem hgt subs2 coms2 d hd
  set r2 := (r.retrieve api_submissions api_comments).2 with hr2
  have hw2 : item.created ≤ r2.timestamp := by
    have h1 : item.created ≤
        (retrieveNewer r.subreddit_name r.timestamp api_submissions).2 :=
      retrieveNewer_snd_mem_le r.subreddit_name r.timestamp api_submissions item hmem hgt
    calc item.created
        ≤ (retrieveNewer r.subreddit_name r.timestamp api_submissions).2 := h1
      _ ≤ r2.timestamp := by
          simp only [hr2, SubredditRetriever.retrieve,
            SubredditRetriever.set_timestamp, retrieve_submissions,
            retrieve_comments]
          exact le_max_left _ _
  have hkept : (r2.retrieve subs2 coms2).1.2.1 =
      (coms2.filter (fun it => r2.timestamp < it.created)).map
        (fun it => ⟨r2.subreddit_name, it.body, it.created⟩) := by
    simpa [SubredditRetriever.retrieve, retrieve_comments] using
      retrieveNewer_fst r2.subreddit_name r2.timestamp coms2
  rw [hkept] at hd
  rcases List.mem_map.mp hd with ⟨it, hit, rfl⟩
  have := List.of_mem_filter hit
  have hlt : r2.timestamp < it.created := by simpa using this
  exact lt_of_le_of_lt hw2 hlt

/-- Closed instance of C10: with watermark `0`, a kept submission at `5` and
kept comment at `3`, the next call's comments are filtered above `5`; the
comment document kept there has timestamp `6 > 5`. -/
theorem c10_shared_watermark_witness : (5 : Int) < (⟨"c", "z", 6⟩ : RDoc).timestamp := by
  have h := c10_shared_watermark ⟨"c", 0⟩ [⟨5, "s"⟩] [⟨3, "x"⟩]
  exact h.2.2.2.2 ⟨5, "s"⟩ (by decide) (by decide) [] [⟨4, "y"⟩, ⟨6, "z"⟩]
    ⟨"c", "z", 6⟩ (by decide)

/-! ### Tokenizer (`format_comment` / `format_submission`) -/

/-- A body string, modelled as its sequence of character codes (a Python 2
`str` is a byte string; the relevant semantics are ASCII). -/
abbrev PyStr := List Nat

/-- The character class of the pattern `[\w']` in
`re.findall(r"[\w']+", body)`: Python 2 `\w` without `re.UNICODE` is
`[A-Za-z0-9_]`, and the pattern adds the apostrophe.  Codes: 39 is `'`,
48-57 are `0`-`9`, 65-90 are `A`-`Z`, 95 is `_`, 97-122 are `a`-`z`. -/
def isWordChar (c : Nat) : Bool :=
  decide ((65 ≤ c ∧ c ≤ 90) ∨ (97 ≤ c ∧ c ≤ 122) ∨ (48 ≤ c ∧ c ≤ 57) ∨
          c = 95 ∨ c = 39)

/-- The token character class the specification states: letters, digits and
apostrophes — written from the spec's words, for comparison with
`isWordChar`, which is written from the code's regex. -/
def isSpecTokenChar (c : Nat) : Bool :=
  decide ((65 ≤ c ∧ c ≤ 90) ∨ (97 ≤ c ∧ c ≤ 122) ∨ (48 ≤ c ∧ c ≤ 57) ∨ c = 39)

/-- Python 2 `str.lower()` on one character code: ASCII `A`-`Z` shifts down
to `a`-`z`; everything else is unchanged. -/
def py_lower (c : Nat) : Nat := if 65 ≤ c ∧ c ≤ 90 then c + 32 else c

/-- `re.findall(r"[\w']+", body)`: the maximal runs of word characters, in
order.  `acc` is the run currently being read (initially empty). -/
def findall_words : PyStr → PyStr → List PyStr
  | [], acc => if acc.isEmpty then [] else [acc]
  | c :: cs, acc =>
    if isWordChar c then findall_words cs (acc ++ [c])
    else if acc.isEmpty then findall_words cs []
    else acc :: findall_words cs []

/-- `format_comment` (`reddit_indexer.py` lines 254-267):
`Counter([s.lower() for s in re.findall(r"[\w']+", comment['body'])]).keys()`
— the distinct lowercased word runs of the body.  `Counter.keys()` lists
the distinct tokens in an unspecified (hash) order; we model that
distinct-token list with `dedup`, and all claims about it are
order-insensitive. -/
def format_comment (body : PyStr) : List PyStr :=
  ((findall_words body []).map (fun w => w.map py_lower)).dedup

/-- `format_submission` (lines 270-283): same computation on
`submission['body']`. -/
def format_submission (body : PyStr) : List PyStr :=
  ((findall_words body []).map (fun w => w.map py_lower)).dedup

theorem py_lower_isWordChar {c : Nat} (h : isWordChar c = true) :
    isWordChar (py_lower c) = true := by
  simp only [isWordChar, decide_eq_true_eq] at h ⊢
  unfold py_lower
  split <;> omega

theorem py_lower_not_upper (c : Nat) : ¬ (65 ≤ py_lower c ∧ py_lower c ≤ 90) := by
  unfold py_lower
  split <;> omega

theorem findall_words_sound (cs : PyStr) :
    ∀ acc : PyStr, (∀ c ∈ acc, isWordChar c = true) →
      ∀ t ∈ findall_words cs acc, t ≠ [] ∧ ∀ c ∈ t, isWordChar c = true := by
  induction cs with
  | nil =>
    intro acc hacc t ht
    by_cases h : acc.isEmpty
    · simp [findall_words, h] at ht
    · simp only [findall_words, if_neg h, List.mem_singleton] at ht
      subst ht
      exact ⟨by simpa [List.isEmpty_iff] using h, hacc⟩
  | cons c cs ih =>
    intro acc hacc t ht
    by_cases hw : isWordChar c
    · refine ih (acc ++ [c]) ?_ t (by simpa [findall_words, hw] using ht)
      intro d hd
      rcases List.mem_append.mp hd with hd | hd
      · exact hacc d hd
      · simpa [List.mem_singleton.mp hd]
    · by_cases he : acc.isEmpty
      · exact ih [] (by simp) t (by simpa [findall_words, hw, he] using ht)
      · simp only [findall_words, if_neg hw, if_neg he, List.mem_cons] at ht
        rcases ht with rfl | ht
        · exact ⟨by simpa [List.isEmpty_iff] using he, hacc⟩
        · exact ih [] (by simp) t ht

theorem findall_words_of_no_word (cs : PyStr)
    (h : ∀ c ∈ cs, isWordChar c = false) : findall_words cs [] = [] := by
  induction cs with
  | nil => simp [findall_words]
  | cons c cs ih =>
    have hc : ¬ isWordChar c := by simp [h c (List.mem_cons_self c cs)]
    simp only [findall_words, if_neg hc, List.isEmpty_nil, if_pos rfl]
    exact ih (fun d hd => h d (List.mem_cons_of_mem c hd))

/-- C5 (amended: the word-character class of the code's regex `[\w']+`
additionally contains the underscore, code 95): the tokenizer returns a
duplicate-free list of tokens; every token is a non-empty run of word
characters (letters, digits, underscores, apostrophes) with no uppercase
letter left after lowercasing; a body with no word character at all — in
particular an empty or whitespace-only body — yields no tokens; both item
kinds use the same pure function.  Sample: `"Hi!hi"` (codes
`[72, 105, 33, 104, 105]`) tokenizes to the single token `"hi"`
(`[104, 105]`). -/
theorem c5_tokenizer (body : PyStr) :
    (∀ t ∈ format_comment body,
       t ≠ [] ∧ (∀ c ∈ t, isWordChar c = true) ∧
       (∀ c ∈ t, ¬ (65 ≤ c ∧ c ≤ 90))) ∧
    (format_comment body).Nodup ∧
    ((∀ c ∈ body, isWordChar c = false) → format_comment body = []) ∧
    format_submission body = format_comment body ∧
    format_comment [72, 105, 33, 104, 105] = [[104, 105]] := by
  refine ⟨?_, List.nodup_dedup _, ?_, rfl, by decide⟩
  · intro t ht
    have ht' := List.mem_dedup.mp ht
    rcases List.mem_map.mp ht' with ⟨w, hw, rfl⟩
    have hsound := findall_words_sound body [] (by simp) w hw
    refine ⟨by simpa using hsound.1, ?_, ?_⟩
    · intro c hc
      rcases List.mem_map.mp hc with ⟨d, hd, rfl⟩
      exact py_lower_isWordChar (hsound.2 d hd)
    · intro c hc
      rcases List.mem_map.mp hc with ⟨d, _, rfl⟩
      exact py_lower_not_upper d
  · intro hnone
    simp [format_comment, findall_words_of_no_word body hnone]

/-- Closed instance of C5's hypotheses: the whitespace-punctuation body
`" !"` (codes `[32, 33]`) yields no tokens. -/
theorem c5_tokenizer_witness : format_comment [32, 33] = [] := by
  have h := c5_tokenizer [32, 33]
  exact h.2.2.1 (by decide)

/-- Counterexample to C5 as stated: the claim says no character outside
the class letters/digits/apostrophes ever appears in an output token, but
for the body `"a_b"` (codes `[97, 95, 98]`) the code's regex `[\w']+`
keeps the underscore (code 95) inside the single token `"a_b"`. -/
theorem c5_tokenizer_counterexample :
    format_comment [97, 95, 98] = [[97, 95, 98]] ∧
    (95 : Nat) ∈ ([97, 95, 98] : PyStr) ∧
    isSpecTokenChar 95 = false := by
  decide

/-! ### Partitioner (`create_threads` and helpers) -/

/-- `thread_subreddits[m].append(s)`: append `s` to the `m`-th group. -/
def appendAt (groups : List (List String)) (m : Nat) (s : String) :
    List (List String) :=
  groups.set m ((groups.getD m []) ++ [s])

/-- The assignment loop of `create_multiple_subreddit_threads`
(`reddit_indexer.py` lines 334-336):

    for i, subreddit in enumerate(subreddits):
        thread_subreddits[i % num_threads].append(subreddit)

`i` is the running enumeration index. -/
def assignRR (num_threads : Nat) : Nat → List String → List (List String) →
    List (List String)
  | _, [], groups => groups
  | i, s :: rest, groups =>
      assignRR num_threads (i + 1) rest (appendAt groups (i % num_threads) s)

/-- `create_multiple_subreddit_threads` (lines 315-343), as the list of
subreddit groups (one group per created `SubredditThread`).  The in-place
`random.shuffle(subreddits)` is modelled by taking the already-shuffled
order as the input; theorems assume it is a permutation of the channel set. -/
def create_multiple_subreddit_threads (num_threads : Nat)
    (shuffled : List String) : List (List String) :=
  assignRR num_threads 0 shuffled (List.replicate num_threads [])

/-- `create_simple_threads` (lines 294-312): one single-subreddit group per
subreddit. -/
def create_simple_threads (subreddits : List String) : List (List String) :=
  subreddits.map (fun s => [s])

/-- `create_threads` (lines 346-366): dispatch on
`if num_threads and num_threads < len(subreddits)` — `0` is falsy in
Python, so `num_threads = 0` takes the simple branch. -/
def create_threads (num_threads : Nat) (subreddits shuffled : List String) :
    List (List String) :=
  if num_threads ≠ 0 ∧ num_threads < subreddits.length then
    create_multiple_subreddit_threads num_threads shuffled
  else
    create_simple_threads subreddits

theorem length_appendAt (groups : List (List String)) (m : Nat) (s : String) :
    (appendAt groups m s).length = groups.length :=
  List.length_set groups m _

theorem length_assignRR (num_threads : Nat) :
    ∀ (l : List String) (i : Nat) (groups : List (List String)),
      (assignRR num_threads i l groups).length = groups.length := by
  intro l
  induction l with
  | nil => intro i groups; rfl
  | cons s rest ih =>
    intro i groups
    rw [assignRR, ih, length_appendAt]

theorem getD_appendAt_self (groups : List (List String)) (m : Nat) (s : String)
    (h : m < groups.length) :
    (appendAt groups m s).getD m [] = groups.getD m [] ++ [s] := by
  rw [appendAt, List.getD_eq_getElem?_getD, List.getElem?_set_self h]
  rfl

theorem getD_appendAt_ne (groups : List (List String)) (m j : Nat) (s : String)
    (h : m ≠ j) :
    (appendAt groups m s).getD j [] = groups.getD j [] := by
  rw [appendAt, List.getD_eq_getElem?_getD, List.getElem?_set_ne h,
    ← List.getD_eq_getElem?_getD]

theorem flatten_appendAt_perm (groups : List (List String)) :
    ∀ (m : Nat) (s : String), m < groups.length →
      (appendAt groups m s).flatten.Perm (s :: groups.flatten) := by
  induction groups with
  | nil => intro m s h; simp at h
  | cons g rest ih =>
    intro m s h
    match m with
    | 0 =>
      simp only [appendAt, List.getD_cons_zero, List.set_cons_zero,
        List.flatten_cons, List.append_assoc]
      exact (List.perm_middle).trans (by simp)
    | Nat.succ m' =>
      have h' : m' < rest.length := by simpa using h
      have step : (appendAt (g :: rest) (m' + 1) s).flatten =
          g ++ (appendAt rest m' s).flatten := by
        simp [appendAt, List.set_cons_succ, List.getD_cons_succ]
      rw [step]
      have h1 : (g ++ (appendAt rest m' s).flatten).Perm
          (g ++ (s :: rest.flatten)) := (ih m' s h').append_left g
      have h2 : (g ++ (s :: rest.flatten)).Perm (s :: (g ++ rest.flatten)) :=
        List.perm_middle
      simpa using h1.trans h2

theorem assignRR_flatten_perm (num_threads : Nat) (hn : num_threads ≠ 0) :
    ∀ (l : List String) (i : Nat) (groups : List (List String)),
      groups.length = num_threads →
      (assignRR num_threads i l groups).flatten.Perm (l ++ groups.flatten) := by
  intro l
  induction l with
  | nil => intro i groups _; simp [assignRR]
  | cons s rest ih =>
    intro i groups hlen
    rw [assignRR]
    have hm : i % num_threads < groups.length := by
      rw [hlen]; exact Nat.mod_lt _ (Nat.pos_of_ne_zero hn)
    have h1 := ih (i + 1) (appendAt groups (i % num_threads) s)
      (by rw [length_appendAt, hlen])
    have h2 : (rest ++ (appendAt groups (i % num_threads) s).flatten).Perm
        (rest ++ (s :: groups.flatten)) :=
      (flatten_appendAt_perm groups (i % num_threads) s hm).append_left rest
    have h3 : (rest ++ (s :: groups.flatten)).Perm
        (s :: (rest ++ groups.flatten)) := List.perm_middle
    simpa using (h1.trans h2).trans h3

theorem flatten_replicate_nil (n : Nat) :
    (List.replicate n ([] : List String)).flatten = [] := by
  induction n with
  | zero => rfl
  | succ n ih => simp [List.replicate_succ, ih]

theorem flatten_create_simple (subreddits : List String) :
    (create_simple_threads subreddits).flatten = subreddits := by
  induction subreddits with
  | nil => rfl
  | cons s rest ih => simp [create_simple_threads] at ih ⊢; exact ih

theorem create_threads_flatten_perm (num_threads : Nat)
    (subreddits shuffled : List String) (hperm : shuffled.Perm subreddits) :
    (create_threads num_threads subreddits shuffled).flatten.Perm subreddits := by
  unfold create_threads
  split
  · next h =>
    have := assignRR_flatten_perm num_threads h.1 shuffled 0
      (List.replicate num_threads []) (by simp)
    rw [create_multiple_subreddit_threads]
    refine this.trans ?_
    rw [flatten_replicate_nil]
    simpa using hperm
  · rw [flatten_create_simple]

/-- In a family of groups whose concatenation has no duplicates, an element
of the concatenation belongs to exactly one group. -/
theorem countP_groups_eq_one (c : String) :
    ∀ groups : List (List String), groups.flatten.Nodup →
      c ∈ groups.flatten →
      groups.countP (fun g => decide (c ∈ g)) = 1 := by
  intro groups
  induction groups with
  | nil => intro _ h; simp at h
  | cons g rest ih =>
    intro hnodup hmem
    rw [List.flatten_cons] at hnodup hmem
    have hdisj := List.disjoint_of_nodup_append hnodup
    have hg := (List.nodup_append.mp hnodup).1
    have hrest := (List.nodup_append.mp hnodup).2.1
    rw [List.countP_cons]
    by_cases hcg : c ∈ g
    · have hnot : c ∉ rest.flatten := fun hc => hdisj hcg hc
      have : rest.countP (fun g' => decide (c ∈ g')) = 0 :=
        List.countP_eq_zero.mpr (fun g' hg' hcg' => by
          exact hnot (List.mem_flatten.mpr ⟨g', hg', by simpa using hcg'⟩))
      simp [this, hcg]
    · have hcr : c ∈ rest.flatten := by
        rcases List.mem_append.mp hmem with h | h
        · exact absurd h hcg
        · exact h
      have := ih hrest hcr
      simp [this, hcg]

/-- C3: for every channel list, every worker-count target and every shuffled
order (a permutation of the channels), the groups `create_threads` produces
cover the channels exactly: their concatenation is a permutation of the
input, so every channel appears in some group; and when the input channel
set is duplicate-free, the groups are pairwise disjoint and every channel
appears in exactly one group. -/
theorem c3_partition_disjoint_cover (num_threads : Nat)
    (subreddits shuffled : List String) (hperm : shuffled.Perm subreddits) :
    (create_threads num_threads subreddits shuffled).flatten.Perm subreddits ∧
    (∀ c, c ∈ subreddits ↔
      ∃ g ∈ create_threads num_threads subreddits shuffled, c ∈ g) ∧
    (subreddits.Nodup →
      List.Pairwise List.Disjoint
        (create_threads num_threads subreddits shuffled) ∧
      ∀ c ∈ subreddits,
        (create_threads num_threads subreddits shuffled).countP
          (fun g => decide (c ∈ g)) = 1) := by
  have hflat := create_threads_flatten_perm num_threads subreddits shuffled hperm
  refine ⟨hflat, ?_, ?_⟩
  · intro c
    constructor
    · intro h
      exact List.mem_flatten.mp (hflat.mem_iff.mpr h)
    · intro h
      exact hflat.mem_iff.mp (List.mem_flatten.mpr h)
  · intro hnodup
    have hfn : (create_threads num_threads subreddits shuffled).flatten.Nodup :=
      hflat.symm.nodup hnodup
    refine ⟨(List.nodup_flatten.mp hfn).2, ?_⟩
    intro c hc
    exact countP_groups_eq_one c _ hfn (hflat.mem_iff.mpr hc)

/-- Closed instance of C3: three channels, two workers, a concrete shuffle. -/
theorem c3_partition_disjoint_cover_witness :
    (create_threads 2 ["a", "b", "c"] ["c", "a", "b"]).flatten.Perm
      ["a", "b", "c"] ∧
    List.Pairwise List.Disjoint (create_threads 2 ["a", "b", "c"] ["c", "a", "b"]) := by
  have h := c3_partition_disjoint_cover 2 ["a", "b", "c"] ["c", "a", "b"]
    (by decide)
  exact ⟨h.1, (h.2.2 (by decide)).1⟩

/-! ### Round-robin counting facts for C4 -/

theorem countP_range_shift (i n j L : Nat) :
    (List.range (L + 1)).countP (fun k => decide ((i + k) % n = j)) =
      (List.range L).countP (fun k => decide ((i + 1 + k) % n = j)) +
      (if i % n = j then 1 else 0) := by
  rw [List.range_succ_eq_map, List.countP_cons, List.countP_map]
  have hcongr : (List.range L).countP
      ((fun k => decide ((i + k) % n = j)) ∘ Nat.succ) =
      (List.range L).countP (fun k => decide ((i + 1 + k) % n = j)) := by
    refine List.countP_congr ?_
    intro k _
    have e : i + Nat.succ k = i + 1 + k := by omega
    simp only [Function.comp_apply, e]
  rw [hcongr]
  simp

theorem countP_range_mod (n r : Nat) (hn : n ≠ 0) (hr : r < n) (L : Nat) :
    (List.range L).countP (fun k => decide (k % n = r)) =
      L / n + (if r < L % n then 1 else 0) := by
  induction L with
  | zero => simp
  | succ L ih =>
    rw [List.range_succ, List.countP_append, ih]
    have hone : List.countP (fun k => decide (k % n = r)) [L] =
        if L % n = r then 1 else 0 := by
      simp [List.countP_cons]
    rw [hone]
    have hdm := Nat.div_add_mod L n
    have hmlt : L % n < n := Nat.mod_lt _ (Nat.pos_of_ne_zero hn)
    rcases Nat.lt_or_ge (L % n + 1) n with hc | hc
    · -- L % n + 1 < n : division and remainder both move by one in the remainder
      have hL1 : L + 1 = (L % n + 1) + n * (L / n) := by omega
      have hdiv : (L + 1) / n = L / n := by
        rw [hL1, Nat.add_mul_div_left _ _ (Nat.pos_of_ne_zero hn),
          Nat.div_eq_of_lt hc, Nat.zero_add]
      have hmod : (L + 1) % n = L % n + 1 := by
        rw [hL1, Nat.add_mul_mod_self_left, Nat.mod_eq_of_lt hc]
      rw [hdiv, hmod]
      split_ifs <;> omega
    · -- L % n + 1 = n : the division steps, the remainder resets
      have hc' : L % n + 1 = n := by omega
      have hmul : n * (L / n + 1) = n * (L / n) + n := by ring
      have hL1 : L + 1 = n * (L / n + 1) := by omega
      have hdiv : (L + 1) / n = L / n + 1 := by
        rw [hL1, Nat.mul_div_cancel_left _ (Nat.pos_of_ne_zero hn)]
      have hmod : (L + 1) % n = 0 := by
        rw [hL1, Nat.mul_mod_right]
      rw [hdiv, hmod]
      split_ifs <;> omega

theorem add_mod_eq_iff (n i j : Nat) (hn : n ≠ 0) (hj : j < n) (k : Nat) :
    ((i + k) % n = j) ↔ (k % n = (n - i % n + j) % n) := by
  have hpos := Nat.pos_of_ne_zero hn
  have ha : i % n < n := Nat.mod_lt _ hpos
  have hb : k % n < n := Nat.mod_lt _ hpos
  have h1 : (i + k) % n = (i % n + k % n) % n := by
    rw [Nat.add_mod]
  have h2 : (i % n + k % n) % n =
      if i % n + k % n < n then i % n + k % n else i % n + k % n - n := by
    split
    · exact Nat.mod_eq_of_lt (by assumption)
    · rw [Nat.mod_eq_sub_mod (by omega)]
      exact Nat.mod_eq_of_lt (by omega)
  have h3 : (n - i % n + j) % n =
      if n - i % n + j < n then n - i % n + j else n - i % n + j - n := by
    split
    · exact Nat.mod_eq_of_lt (by assumption)
    · rw [Nat.mod_eq_sub_mod (by omega)]
      exact Nat.mod_eq_of_lt (by omega)
  rw [h1, h2, h3]
  split <;> split <;> omega

theorem countP_range_add_mod_le (n i j L : Nat) (hn : n ≠ 0) (hj : j < n) :
    (List.range L).countP (fun k => decide ((i + k) % n = j)) ≤
      (L + n - 1) / n := by
  have hcongr : (List.range L).countP (fun k => decide ((i + k) % n = j)) =
      (List.range L).countP (fun k => decide (k % n = (n - i % n + j) % n)) := by
    refine List.countP_congr ?_
    intro k _
    simp only [decide_eq_true_eq]
    exact add_mod_eq_iff n i j hn hj k
  rw [hcongr,
    countP_range_mod n _ hn (Nat.mod_lt _ (Nat.pos_of_ne_zero hn)) L]
  have hdm := Nat.div_add_mod L n
  by_cases hi : (n - i % n + j) % n < L % n
  · have hmlt : L % n < n := Nat.mod_lt _ (Nat.pos_of_ne_zero hn)
    have hmul : n * (L / n + 1) = n * (L / n) + n := by ring
    have hL : L + n - 1 = (L % n - 1) + n * (L / n + 1) := by omega
    have hceil : (L + n - 1) / n = L / n + 1 := by
      rw [hL, Nat.add_mul_div_left _ _ (Nat.pos_of_ne_zero hn),
        Nat.div_eq_of_lt (by omega)]
      omega
    rw [if_pos hi, hceil]
  · rw [if_neg hi]
    have h : L ≤ L + n - 1 := by omega
    simpa using Nat.div_le_div_right (c := n) h

theorem getD_assignRR_length (n : Nat) (hn : n ≠ 0) :
    ∀ (l : List String) (i : Nat) (groups : List (List String)),
      groups.length = n → ∀ j : Nat,
      ((assignRR n i l groups).getD j []).length =
        (groups.getD j []).length +
        (List.range l.length).countP (fun k => decide ((i + k) % n = j)) := by
  intro l
  induction l with
  | nil => intro i groups _ j; simp [assignRR]
  | cons s rest ih =>
    intro i groups hlen j
    rw [assignRR, ih (i + 1) _ (by rw [length_appendAt, hlen]) j]
    simp only [List.length_cons]
    rw [countP_range_shift i n j rest.length]
    have hml : i % n < groups.length := by
      rw [hlen]; exact Nat.mod_lt _ (Nat.pos_of_ne_zero hn)
    by_cases hj : i % n = j
    · subst hj
      rw [getD_appendAt_self groups (i % n) s hml, if_pos rfl,
        List.length_append]
      simp; omega
    · rw [getD_appendAt_ne groups (i % n) j s hj, if_neg hj]
      omega

/-- C4: if `targetWorkers` is unset (`0`, falsy in Python) or at least the
number of channels, partitioning yields one group per channel, so the
number of groups equals the number of channels; otherwise the round-robin
assignment over the shuffled order yields exactly `targetWorkers` groups,
none larger than `⌈len(channels) / targetWorkers⌉`. -/
theorem c4_partition_sizes (num_threads : Nat) (subreddits shuffled : List String)
    (hperm : shuffled.Perm subreddits) :
    ((num_threads = 0 ∨ subreddits.length ≤ num_threads) →
      create_threads num_threads subreddits shuffled =
        subreddits.map (fun s => [s]) ∧
      (create_threads num_threads subreddits shuffled).length =
        subreddits.length) ∧
    (num_threads ≠ 0 → num_threads < subreddits.length →
      (create_threads num_threads subreddits shuffled).length = num_threads ∧
      ∀ g ∈ create_threads num_threads subreddits shuffled,
        g.length ≤ (subreddits.length + num_threads - 1) / num_threads) := by
  constructor
  · intro h
    have hcond : ¬ (num_threads ≠ 0 ∧ num_threads < subreddits.length) := by
      rintro ⟨h1, h2⟩
      rcases h with h | h
      · exact h1 h
      · omega
    rw [create_threads, if_neg hcond]
    exact ⟨rfl, by simp [create_simple_threads]⟩
  · intro h1 h2
    rw [create_threads, if_pos ⟨h1, h2⟩]
    have hlen : (create_multiple_subreddit_threads num_threads shuffled).length =
        num_threads := by
      rw [create_multiple_subreddit_threads, length_assignRR,
        List.length_replicate]
    refine ⟨hlen, ?_⟩
    intro g hg
    rcases List.mem_iff_getElem.mp hg with ⟨j, hjlt, hgj⟩
    have hjn : j < num_threads := by rw [← hlen]; exact hjlt
    have hgd : (create_multiple_subreddit_threads num_threads shuffled).getD j []
        = g := by
      rw [List.getD_eq_getElem _ _ hjlt, hgj]
    have hcount := getD_assignRR_length num_threads h1 shuffled 0
      (List.replicate num_threads []) (by simp) j
    rw [create_multiple_subreddit_threads] at hgd
    have hrep : (List.replicate num_threads ([] : List String)).getD j [] = [] := by
      rw [List.getD_eq_getElem _ _ (by simpa using hjn), List.getElem_replicate]
    rw [hgd, hrep] at hcount
    rw [← hperm.length_eq]
    rw [hcount]
    simpa using countP_range_add_mod_le num_threads 0 j shuffled.length h1 hjn

/-- Closed instance of C4: three channels over two workers via a concrete
shuffle give two groups of sizes `2` and `1`, both within
`⌈3 / 2⌉ = 2`; five workers over the same three channels degenerate to one
group per channel. -/
theorem c4_partition_sizes_witness :
    (create_threads 2 ["a", "b", "c"] ["c", "a", "b"]).length = 2 ∧
    (["c", "b"] : List String).length ≤ (3 + 2 - 1) / 2 ∧
    create_threads 5 ["a", "b", "c"] ["c", "a", "b"] = [["a"], ["b"], ["c"]] := by
  have h := c4_partition_sizes 2 ["a", "b", "c"] ["c", "a", "b"] (by decide)
  have h5 := c4_partition_sizes 5 ["a", "b", "c"] ["c", "a", "b"] (by decide)
  refine ⟨(h.2 (by decide) (by decide)).1, ?_, ?_⟩
  · have hb := (h.2 (by decide) (by decide)).2 ["c", "b"] (by decide)
    simp only [List.length_cons] at hb ⊢
    exact hb
  · have := (h5.1 (Or.inr (by decide))).1
    simpa using this

/-! ### Writer (`mongodb_interface.py`) -/

/-- Collection-name prefix `REDDIT = 'reddit__'` (`mongodb_interface.py`
line 16). -/
def REDDIT : String := "reddit__"

/-- Kind prefix `COMM = 'comm__'` (line 17). -/
def COMM : String := "comm__"

/-- Kind prefix `SUBM = 'subm__'` (line 18). -/
def SUBM : String := "subm__"

/-- The value stored under the `'word'` key of an inserted document.  The
comments path stores a string (`' '.join(words)`); the submissions path
stores the Python list of tokens itself, so the field is genuinely
heterogeneous between the two paths. -/
inductive WordField where
  | str : String → WordField
  | list : List String → WordField
deriving DecidableEq, Repr

/-- Whether a `'word'` value is a (joined) string. -/
def WordField.isStr : WordField → Bool
  | .str _ => true
  | .list _ => false

/-- A document as handed to `insert_many`: the retrieved item's fields plus
the added `'word'` key. -/
structure MDoc where
  subreddit : String
  body : String
  timestamp : Int
  word : WordField
deriving DecidableEq, Repr

/-- The document-building loop of `insert_comments` (lines 154-157):

    to_insert = []
    for words, comment in comments:
        comment['word'] = ' '.join(words)
        to_insert.append(comment)
-/
def insert_comments_build (comments : List (List String × RDoc)) : List MDoc :=
  comments.foldl
    (fun to_insert p =>
      to_insert ++ [{ subreddit := p.2.subreddit, body := p.2.body,
                      timestamp := p.2.timestamp,
                      word := .str (String.intercalate " " p.1) }])
    []

/-- The document-building loop of `insert_submissions` (lines 181-184):
`submission['word'] = words` — the token list is stored unjoined. -/
def insert_submissions_build (submissions : List (List String × RDoc)) :
    List MDoc :=
  submissions.foldl
    (fun to_insert p =>
      to_insert ++ [{ subreddit := p.2.subreddit, body := p.2.body,
                      timestamp := p.2.timestamp, word := .list p.1 }])
    []

/-- The store's `insert_many`, abstracted by whether the underlying bulk
write raises `pymongo.errors.BulkWriteError`. -/
def insert_many_outcome (storeRaisesBulkWriteError : Bool) : Except String Unit :=
  if storeRaisesBulkWriteError then .error "BulkWriteError" else .ok ()

/-- The single bulk-insert call a write issues: the target collection and
the full batch of built documents. -/
structure InsertOp where
  collection : String
  docs : List MDoc
deriving DecidableEq, Repr

/-- `insert_comments` (lines 142-166): builds the documents, targets
collection `REDDIT + COMM + subreddit`, and performs one `insert_many`
guarded by `try`/`except pymongo.errors.BulkWriteError as blk:
print vars(blk)` — the error is reported and never propagates.  The result
is the issued bulk-insert call, or the uncaught error. -/
def insert_comments (subreddit : String) (comments : List (List String × RDoc))
    (storeRaisesBulkWriteError : Bool) : Except String InsertOp :=
  let op : InsertOp := { collection := REDDIT ++ COMM ++ subreddit,
                         docs := insert_comments_build comments }
  match insert_many_outcome storeRaisesBulkWriteError with
  | .ok _ => .ok op
  | .error _blk => .ok op

/-- `insert_submissions` (lines 169-190): same shape on collection
`REDDIT + SUBM + subreddit`, but with no `try`/`except` around
`insert_many` — a `BulkWriteError` propagates to the caller. -/
def insert_submissions (subreddit : String)
    (submissions : List (List String × RDoc))
    (storeRaisesBulkWriteError : Bool) : Except String InsertOp :=
  let op : InsertOp := { collection := REDDIT ++ SUBM ++ subreddit,
                         docs := insert_submissions_build submissions }
  match insert_many_outcome storeRaisesBulkWriteError with
  | .ok _ => .ok op
  | .error e => .error e

/-- The document C6 says the Writer builds for each item — channel, body,
creation timestamp, and a token field holding the space-joined token set.
Written from the spec's words, to be compared with the build loops. -/
def specWriterDoc (p : List String × RDoc) : MDoc :=
  { subreddit := p.2.subreddit, body := p.2.body, timestamp := p.2.timestamp,
    word := .str (String.intercalate " " p.1) }

theorem foldl_append_eq_map {α β : Type} (f : α → β) :
    ∀ (l : List α) (init : List β),
      l.foldl (fun acc p => acc ++ [f p]) init = init ++ l.map f := by
  intro l
  induction l with
  | nil => intro init; simp
  | cons a rest ih => intro init; simp [List.foldl_cons, ih]

/-- C6 (amended: only the comments path joins the token set into a single
string; the submissions path stores the token list itself, unjoined): each
write builds one document per input pair, preserving channel, body and
creation timestamp and adding the `'word'` field — joined for comments,
the raw list for submissions — and issues exactly one bulk insert of all
built documents against the collection named by the prefix scheme. -/
theorem c6_writer_documents (subreddit : String)
    (pairs : List (List String × RDoc)) (storeRaises : Bool) :
    insert_comments_build pairs = pairs.map specWriterDoc ∧
    insert_submissions_build pairs =
      pairs.map (fun p => { subreddit := p.2.subreddit, body := p.2.body,
                            timestamp := p.2.timestamp, word := .list p.1 }) ∧
    insert_comments subreddit pairs storeRaises =
      .ok { collection := REDDIT ++ COMM ++ subreddit,
            docs := pairs.map specWriterDoc } ∧
    insert_submissions subreddit pairs false =
      .ok { collection := REDDIT ++ SUBM ++ subreddit,
            docs := insert_submissions_build pairs } := by
  have hc : insert_comments_build pairs = pairs.map specWriterDoc :=
    foldl_append_eq_map specWriterDoc pairs []
  have hs : insert_submissions_build pairs =
      pairs.map (fun p => { subreddit := p.2.subreddit, body := p.2.body,
                            timestamp := p.2.timestamp, word := .list p.1 }) :=
    foldl_append_eq_map _ pairs []
  refine ⟨hc, hs, ?_, ?_⟩
  · cases storeRaises <;>
      simp [insert_comments, insert_many_outcome, hc]
  · simp [insert_submissions, insert_many_outcome]

/-- Counterexample to C6 as stated: the claim says both item kinds store a
joined single string in the token field, but for a concrete submission the
stored `'word'` value is the token list, not a string (`isStr` is `false`),
while the same item written as a comment does get the joined string. -/
theorem c6_writer_documents_counterexample :
    (insert_submissions_build
      [(["hello", "world"], ⟨"test", "Hello World", 3⟩)]).map
        (fun d => d.word.isStr) = [false] ∧
    (insert_comments_build
      [(["hello", "world"], ⟨"test", "Hello World", 3⟩)]).map
        (fun d => d.word.isStr) = [true] :=
  ⟨rfl, rfl⟩

/-- C7: a `BulkWriteError` raised during the comments write path is caught
and reported without propagating, while the same error raised during the
submissions write path propagates uncaught; exactly one of the two kinds
isolates the failure (and without a store error both succeed). -/
theorem c7_bulk_error_asymmetry (subreddit : String)
    (pairs : List (List String × RDoc)) :
    (insert_comments subreddit pairs true).isOk = true ∧
    (insert_submissions subreddit pairs true).isOk = false ∧
    (insert_comments subreddit pairs false).isOk = true ∧
    (insert_submissions subreddit pairs false).isOk = true := by
  refine ⟨?_, ?_, ?_, ?_⟩ <;>
    simp [insert_comments, insert_submissions, insert_many_outcome,
      Except.isOk, Except.toBool]

/-! ### Read-path query construction (`__create_query` and friends) -/

/-- The `'timestamp'` condition `{'$gte': from, '$lte': to}`. -/
structure RangeCond where
  gte : Int
  lte : Int
deriving DecidableEq, Repr

/-- The `'$text'` condition `{'$search': key, '$language': 'none'}`. -/
structure TextCond where
  search : String
  language : String
deriving DecidableEq, Repr

/-- A query document: always a timestamp range, optionally a text match. -/
structure MQuery where
  timestamp : RangeCond
  text : Option TextCond
deriving DecidableEq, Repr

/-- `__create_query_without_key` (`mongodb_interface.py` lines 36-52). -/
def create_query_without_key (from_timestamp to_timestamp : Int) : MQuery :=
  { timestamp := ⟨from_timestamp, to_timestamp⟩, text := none }

/-- `__create_query_with_key` (lines 55-76). -/
def create_query_with_key (from_timestamp to_timestamp : Int)
    (key : String) : MQuery :=
  { timestamp := ⟨from_timestamp, to_timestamp⟩,
    text := some ⟨key, "none"⟩ }

/-- The `find` call `__create_query` issues: target collection and query
document. -/
structure FindCall where
  collection : String
  query : MQuery
deriving DecidableEq, Repr

/-- `__create_query` (lines 79-110): the collection is
`REDDIT + collection + subreddit` (role prefix + kind prefix + channel
name); the query has a key-dependent shape.  `int(...)` coercions of the
bounds are identity here because the bounds are already integers in the
model. -/
def create_query (collection subreddit : String)
    (from_timestamp to_timestamp : Int) (key : Option String) : FindCall :=
  { collection := REDDIT ++ collection ++ subreddit,
    query :=
      match key with
      | none => create_query_without_key from_timestamp to_timestamp
      | some k => create_query_with_key from_timestamp to_timestamp k }

/-- `get_comments` (lines 193-212), `key=None` by default. -/
def get_comments (subreddit : String) (from_timestamp to_timestamp : Int)
    (key : Option String) : FindCall :=
  create_query COMM subreddit from_timestamp to_timestamp key

/-- `get_submissions` (lines 215-234), `key=None` by default. -/
def get_submissions (subreddit : String) (from_timestamp to_timestamp : Int)
    (key : Option String) : FindCall :=
  create_query SUBM subreddit from_timestamp to_timestamp key

/-- C9: the read path targets the collection named by the deterministic
prefix scheme (role prefix `reddit__` + kind prefix `comm__`/`subm__` +
channel name), always filters by the inclusive timestamp range, and adds a
full-text condition on the token field — with `$language: 'none'` — if and
only if a keyword is given; without a keyword the query holds only the
range condition. -/
theorem c9_read_query (subreddit : String) (from_timestamp to_timestamp : Int)
    (key : String) :
    get_comments subreddit from_timestamp to_timestamp none =
      { collection := REDDIT ++ COMM ++ subreddit,
        query := { timestamp := ⟨from_timestamp, to_timestamp⟩,
                   text := none } } ∧
    get_comments subreddit from_timestamp to_timestamp (some key) =
      { collection := REDDIT ++ COMM ++ subreddit,
        query := { timestamp := ⟨from_timestamp, to_timestamp⟩,
                   text := some ⟨key, "none"⟩ } } ∧
    get_submissions subreddit from_timestamp to_timestamp none =
      { collection := REDDIT ++ SUBM ++ subreddit,
        query := { timestamp := ⟨from_timestamp, to_timestamp⟩,
                   text := none } } ∧
    get_submissions subreddit from_timestamp to_timestamp (some key) =
      { collection := REDDIT ++ SUBM ++ subreddit,
        query := { timestamp := ⟨from_timestamp, to_timestamp⟩,
                   text := some ⟨key, "none"⟩ } } ∧
    (∀ k : Option String,
      ((get_comments subreddit from_timestamp to_timestamp k).query.text).isSome
        = k.isSome ∧
      ((get_submissions subreddit from_timestamp to_timestamp k).query.text).isSome
        = k.isSome) := by
  refine ⟨rfl, rfl, rfl, rfl, ?_⟩
  intro k
  cases k <;> exact ⟨rfl, rfl⟩

/-! ### Worker loop (`SubredditThread.run`) -/

/-- What a worker-loop step can emit: one channel fully handled (its
retrieve → format → insert block), one completed sleep, or the final
return of `run`. -/
inductive WEvent where
  | processed : String → WEvent
  | slept : WEvent
  | stopped : WEvent
deriving DecidableEq, Repr

/-- The control points of `SubredditThread.run` (lines 233-251): at the
`while not CLOSING` guard, inside the for-loop with the remaining channels,
at the `time.sleep` call, or returned. -/
inductive WPhase where
  | check : WPhase
  | sweep : List String → WPhase
  | sleeping : WPhase
  | done : WPhase
deriving DecidableEq, Repr

/-- One step of `SubredditThread.run` against the group of channels the
thread owns.  `closing` is the value the global `CLOSING` flag has at this
instant; the code reads the flag only in the `while` guard, so only the
`.check` branch consults it — the for-body and the sleep never do. -/
def wstep (group : List String) (closing : Bool) :
    WPhase → WPhase × Option WEvent
  | .check => if closing then (.done, some .stopped) else (.sweep group, none)
  | .sweep [] => (.sleeping, none)
  | .sweep (c :: rest) => (.sweep rest, some (.processed c))
  | .sleeping => (.check, some .slept)
  | .done => (.done, none)

/-- Run the machine against an arbitrary evolution of the `CLOSING` flag
(one observed value per step — the signal handler may set it at any time),
collecting the emitted events. -/
def wtrace (group : List String) : List Bool → WPhase → List WEvent
  | [], _ => []
  | b :: bs, st =>
      let s := wstep group b st
      s.2.toList ++ wtrace group bs s.1

/-- `sigterm_handler` (lines 286-291): sets the global `CLOSING` flag. -/
def sigterm_handler (_closing : Bool) : Bool := true

theorem wtrace_done (group : List String) :
    ∀ bs : List Bool, wtrace group bs .done = [] := by
  intro bs
  induction bs with
  | nil => rfl
  | cons b rest ih => simpa [wtrace, wstep] using ih

theorem wtrace_sweep (group : List String) (bs : List Bool) :
    ∀ (rem : List String) (mid : List Bool), mid.length = rem.length + 2 →
      wtrace group (mid ++ bs) (.sweep rem) =
        rem.map WEvent.processed ++ [WEvent.slept] ++ wtrace group bs .check := by
  intro rem
  induction rem with
  | nil =>
    intro mid hmid
    rcases List.length_eq_two.mp (by simpa using hmid) with ⟨b1, b2, rfl⟩
    simp [wtrace, wstep]
  | cons c rest ih =>
    intro mid hmid
    match mid with
    | [] => simp at hmid
    | b :: mid' =>
      have hmid' : mid'.length = rest.length + 2 := by
        simpa [Nat.succ_eq_add_one] using hmid
      simp only [List.cons_append, wtrace, wstep, Option.toList, List.append_eq]
      rw [ih mid' hmid']
      simp

/-- C8: the worker loop observes the cancellation flag only once per
iteration, at the `while` guard before starting a sweep (steps taken
mid-sweep or during the sleep do not depend on the flag's value at all);
consequently, however the flag evolves once a sweep has started — `mid` is
an arbitrary flag history covering the sweep and the sleep — every
remaining channel of the group is processed and the sleep completes before
the next guard, and a guard that observes the flag true stops the worker
immediately and permanently.  In particular, a sweep begun with the flag
false runs to completion and the worker stops at the next guard if the
flag is then true. -/
theorem c8_sweep_completes_before_stop (group rem : List String)
    (mid bs : List Bool) (hmid : mid.length = rem.length + 2) :
    (∀ (b1 b2 : Bool) (st : WPhase), st ≠ WPhase.check →
      wstep group b1 st = wstep group b2 st) ∧
    wtrace group (mid ++ true :: bs) (.sweep rem) =
      rem.map WEvent.processed ++ [WEvent.slept, WEvent.stopped] ∧
    wtrace group (true :: bs) .check = [WEvent.stopped] ∧
    (mid.length = group.length + 2 →
      wtrace group (false :: (mid ++ true :: bs)) .check =
        group.map WEvent.processed ++ [WEvent.slept, WEvent.stopped]) := by
  have hstop : wtrace group (true :: bs) .check = [WEvent.stopped] := by
    simp [wtrace, wstep, wtrace_done]
  have hsweep : ∀ (rem' : List String) (mid' : List Bool),
      mid'.length = rem'.length + 2 →
      wtrace group (mid' ++ true :: bs) (.sweep rem') =
        rem'.map WEvent.processed ++ [WEvent.slept, WEvent.stopped] := by
    intro rem' mid' h
    rw [wtrace_sweep group (true :: bs) rem' mid' h, hstop]
    simp
  refine ⟨?_, hsweep rem mid hmid, hstop, ?_⟩
  · intro b1 b2 st hst
    cases st with
    | check => exact absurd rfl hst
    | sweep rem' => cases rem' <;> rfl
    | sleeping => rfl
    | done => rfl
  · intro hlen
    have : wtrace group (false :: (mid ++ true :: bs)) .check =
        wtrace group (mid ++ true :: bs) (.sweep group) := by
      simp [wtrace, wstep]
    rw [this, hsweep group mid hlen]

/-- Closed instance of C8: group `["a", "b"]`, cancellation requested
already during the sweep (the flag reads true at every step after the
guard): both channels are still processed, the sleep completes, and only
then does the worker stop. -/
theorem c8_sweep_completes_before_stop_witness :
    wtrace ["a", "b"] (false :: ([true, true, true, true] ++ true :: [])) .check =
      [WEvent.processed "a", WEvent.processed "b", WEvent.slept,
       WEvent.stopped] := by
  have h := c8_sweep_completes_before_stop ["a", "b"] ["a", "b"]
    [true, true, true, true] [] (by decide)
  exact h.2.2.2 (by decide)
